import Mathlib

/-!
# Verification of the batch rename planning / two-phase commit pipeline

Shallow embedding of the core of the `Image-Renamd_By_AI-OCR` application:

* `src/Tagtool/core/utils.py` : `sanitize_and_upper`, `two_phase_rename`
* `src/core/planner.py`       : `plan_name`
* `src/core/renamer.py`       : `write_mapping_csv`, `perform_batch_rename`
* `src/core/ocr_client.py`    : `OCRClient.ocr`
* `src/Tagtool/ui/pages/ai_task_page.py` : `AiWorker.run`

Strings are modelled on their underlying `List Char`.  Characters are compared
through `Char.toNat`, so all character-class reasoning is plain arithmetic.
Filesystem renames follow the semantics of `os.rename` on Windows, the platform
this desktop GUI targets: renaming onto an existing path raises an error and
changes nothing (the inline comments of `two_phase_rename` assume exactly this
behaviour: "目标已存在则失败", "回滚…可能也失败").
-/

namespace TagRename

/-- ASCII whitespace stripped by Python's `str.strip()` (space, tab, newline,
carriage return, vertical tab, form feed).  Non-ASCII whitespace is not
modelled; it is outside `[A-Za-z0-9\-_]` and is therefore replaced by the
sanitizer regardless. -/
def pySpace (c : Char) : Bool :=
  c.toNat == 32 || c.toNat == 9 || c.toNat == 10 || c.toNat == 13 ||
  c.toNat == 11 || c.toNat == 12

/-- The character class `[A-Za-z0-9\-_]` that `_SANITIZE_RE` leaves alone. -/
def isLegal (c : Char) : Bool :=
  (65 ≤ c.toNat && c.toNat ≤ 90) || (97 ≤ c.toNat && c.toNat ≤ 122) ||
  (48 ≤ c.toNat && c.toNat ≤ 57) || c.toNat == 45 || c.toNat == 95

/-- Characters that may appear in sanitizer output: `[A-Z0-9\-_]`. -/
def okChar (c : Char) : Bool :=
  (65 ≤ c.toNat && c.toNat ≤ 90) || (48 ≤ c.toNat && c.toNat ≤ 57) ||
  c.toNat == 45 || c.toNat == 95

/-- `s.strip()` on the character list. -/
def pyStripWSList (l : List Char) : List Char :=
  ((l.dropWhile pySpace).reverse.dropWhile pySpace).reverse

/-- `_SANITIZE_RE.sub("-", s)`: each maximal run of characters outside
`[A-Za-z0-9\-_]` becomes a single `'-'`.  The flag records whether we are
inside such a run (its `'-'` has already been emitted). -/
def subIllegal : Bool → List Char → List Char
  | _, [] => []
  | inRun, c :: cs =>
    if isLegal c then c :: subIllegal false cs
    else if inRun then subIllegal true cs
    else '-' :: subIllegal true cs

/-- `re.sub(r"-\x7b2,\x7d", "-", s)`: each run of `'-'` collapses to one
`'-'`.  The flag records whether the previously emitted character was `'-'`. -/
def collapseDash : Bool → List Char → List Char
  | _, [] => []
  | prevDash, c :: cs =>
    if c == '-' then
      (if prevDash then collapseDash true cs else '-' :: collapseDash true cs)
    else c :: collapseDash false cs

/-- Remove the trailing run of `'-'` (the right half of `s.strip("-")`). -/
def dropTrailDash : List Char → List Char
  | [] => []
  | c :: cs =>
    match dropTrailDash cs with
    | [] => if c == '-' then [] else [c]
    | r => c :: r

/-- `s.strip("-")` on the character list. -/
def stripDash (l : List Char) : List Char :=
  dropTrailDash (l.dropWhile (· == '-'))

/-- ASCII upper-casing, the fragment of `str.upper()` reachable here: after
sub/collapse/strip the string only holds characters in `[A-Za-z0-9\-_]`. -/
def pyUpperChar (c : Char) : Char :=
  if h : 97 ≤ c.toNat ∧ c.toNat ≤ 122 then
    Char.ofNatAux (c.toNat - 32) (Or.inl (by omega))
  else c

/-- ASCII lower-casing (`str.lower()` on the same fragment). -/
def pyLowerChar (c : Char) : Char :=
  if h : 65 ≤ c.toNat ∧ c.toNat ≤ 90 then
    Char.ofNatAux (c.toNat + 32) (Or.inl (by omega))
  else c

/-- The pipeline of `sanitize_and_upper` on the character list:
strip whitespace, substitute illegal runs, collapse dash runs, strip dashes,
upper-case. -/
def sanitizeList (l : List Char) : List Char :=
  (stripDash (collapseDash false (subIllegal false (pyStripWSList l)))).map pyUpperChar

/-- `sanitize_and_upper` from `src/Tagtool/core/utils.py`, lines 18-23. -/
def sanitize_and_upper (s : String) : String :=
  ⟨sanitizeList s.data⟩

/-- `str.lower()` for whole strings (used for extensions and class names). -/
def pyLower (s : String) : String :=
  ⟨s.data.map pyLowerChar⟩

/-- `str.strip()` for whole strings. -/
def pyStrip (s : String) : String :=
  ⟨pyStripWSList s.data⟩

/-! ## Output-shape predicates for the sanitizer -/

/-- The first character is not `'-'`. -/
def noLeadDash : List Char → Bool
  | [] => true
  | c :: _ => !(c == '-')

/-- The last character is not `'-'`. -/
def noTrailDash : List Char → Bool
  | [] => true
  | [c] => !(c == '-')
  | _ :: cs => noTrailDash cs

/-- No two adjacent `'-'` characters. -/
def noDD : List Char → Bool
  | [] => true
  | [_] => true
  | c :: d :: cs => !(c == '-' && d == '-') && noDD (d :: cs)

/-! ## Character-level facts -/

theorem char_toNat_inj {c d : Char} (h : c.toNat = d.toNat) : c = d := by
  apply Char.ext
  apply UInt32.eq_of_toBitVec_eq
  apply BitVec.eq_of_toNat_eq
  exact h

theorem char_beq_toNat (c d : Char) : (c == d) = (c.toNat == d.toNat) := by
  cases h : c.toNat == d.toNat with
  | true => simp only [beq_iff_eq] at h ⊢; exact char_toNat_inj h
  | false =>
    simp only [beq_eq_false_iff_ne] at h ⊢
    intro hc; exact h (by rw [hc])

theorem pyUpperChar_toNat (c : Char) :
    (pyUpperChar c).toNat = if 97 ≤ c.toNat ∧ c.toNat ≤ 122 then c.toNat - 32 else c.toNat := by
  unfold pyUpperChar
  split
  · rfl
  · rfl

theorem okChar_pyUpperChar {c : Char} (h : isLegal c = true) :
    okChar (pyUpperChar c) = true := by
  have ht := pyUpperChar_toNat c
  simp only [isLegal, Bool.or_eq_true, Bool.and_eq_true, decide_eq_true_eq,
    Nat.beq_eq_true_eq] at h
  simp only [okChar, Bool.or_eq_true, Bool.and_eq_true, decide_eq_true_eq,
    Nat.beq_eq_true_eq]
  by_cases hc : 97 ≤ c.toNat ∧ c.toNat ≤ 122
  · rw [if_pos hc] at ht; omega
  · rw [if_neg hc] at ht; omega

theorem pyUpperChar_dash (c : Char) : ((pyUpperChar c) == '-') = (c == '-') := by
  have ht := pyUpperChar_toNat c
  have hdash : Char.toNat '-' = 45 := rfl
  rw [char_beq_toNat, char_beq_toNat, hdash]
  by_cases hc : 97 ≤ c.toNat ∧ c.toNat ≤ 122
  · rw [if_pos hc] at ht
    rw [ht]
    have h1 : (c.toNat - 32 == 45) = false := by
      simp only [beq_eq_false_iff_ne, ne_eq]; omega
    have h2 : (c.toNat == 45) = false := by
      simp only [beq_eq_false_iff_ne, ne_eq]; omega
    rw [h1, h2]
  · rw [if_neg hc] at ht; rw [ht]

theorem okChar_pyUpperChar_id {c : Char} (h : okChar c = true) : pyUpperChar c = c := by
  simp only [okChar, Bool.or_eq_true, Bool.and_eq_true, decide_eq_true_eq,
    Nat.beq_eq_true_eq] at h
  unfold pyUpperChar
  rw [dif_neg (by omega)]

theorem okChar_not_pySpace {c : Char} (h : okChar c = true) : pySpace c = false := by
  simp only [okChar, Bool.or_eq_true, Bool.and_eq_true, decide_eq_true_eq,
    Nat.beq_eq_true_eq] at h
  simp only [pySpace, Bool.or_eq_false_iff, beq_eq_false_iff_ne, ne_eq]
  omega

theorem okChar_isLegal {c : Char} (h : okChar c = true) : isLegal c = true := by
  simp only [okChar, Bool.or_eq_true, Bool.and_eq_true, decide_eq_true_eq,
    Nat.beq_eq_true_eq] at h
  simp only [isLegal, Bool.or_eq_true, Bool.and_eq_true, decide_eq_true_eq,
    Nat.beq_eq_true_eq]
  omega

/-! ## Membership and shape facts for the sanitizer stages -/

theorem mem_subIllegal : ∀ (b : Bool) (l : List Char) (c : Char),
    c ∈ subIllegal b l → isLegal c = true := by
  intro b l
  induction l generalizing b with
  | nil => intro c h; simp [subIllegal] at h
  | cons c' cs ih =>
    intro c h
    simp only [subIllegal] at h
    by_cases hc' : isLegal c' = true
    · rw [if_pos hc'] at h
      rcases List.mem_cons.mp h with h1 | h2
      · rw [h1]; exact hc'
      · exact ih false c h2
    · rw [if_neg hc'] at h
      cases b with
      | true => rw [if_pos rfl] at h; exact ih true c h
      | false =>
        rw [if_neg (by simp)] at h
        rcases List.mem_cons.mp h with h1 | h2
        · rw [h1]; decide
        · exact ih true c h2

theorem mem_collapseDash : ∀ (b : Bool) (l : List Char) (c : Char),
    c ∈ collapseDash b l → c ∈ l ∨ c = '-' := by
  intro b l
  induction l generalizing b with
  | nil => intro c h; simp [collapseDash] at h
  | cons c' cs ih =>
    intro c h
    simp only [collapseDash] at h
    by_cases hc' : (c' == '-') = true
    · rw [if_pos hc'] at h
      cases b with
      | true =>
        rw [if_pos rfl] at h
        rcases ih true c h with h1 | h2
        · exact Or.inl (List.mem_cons_of_mem _ h1)
        · exact Or.inr h2
      | false =>
        rw [if_neg (by simp)] at h
        rcases List.mem_cons.mp h with h1 | h2
        · exact Or.inr h1
        · rcases ih true c h2 with h3 | h4
          · exact Or.inl (List.mem_cons_of_mem _ h3)
          · exact Or.inr h4
    · rw [if_neg hc'] at h
      rcases List.mem_cons.mp h with h1 | h2
      · rw [h1]; exact Or.inl (List.mem_cons_self _ _)
      · rcases ih false c h2 with h3 | h4
        · exact Or.inl (List.mem_cons_of_mem _ h3)
        · exact Or.inr h4

theorem noDD_tail {c : Char} {l : List Char} (h : noDD (c :: l) = true) :
    noDD l = true := by
  cases l with
  | nil => rfl
  | cons d ds =>
    simp only [noDD, Bool.and_eq_true] at h
    exact h.2

theorem noDD_cons {x : Char} {r : List Char} (h1 : noDD r = true)
    (h2 : (x == '-') = true → noLeadDash r = true) : noDD (x :: r) = true := by
  cases r with
  | nil => rfl
  | cons d ds =>
    simp only [noDD, Bool.and_eq_true]
    refine ⟨?_, h1⟩
    by_cases hx : (x == '-') = true
    · have := h2 hx
      simp only [noLeadDash, Bool.not_eq_true'] at this
      simp [hx, this]
    · simp only [Bool.not_eq_true] at hx
      simp [hx]

theorem collapseDash_shape : ∀ (l : List Char) (b : Bool),
    noDD (collapseDash b l) = true ∧
      (b = true → noLeadDash (collapseDash b l) = true) := by
  intro l
  induction l with
  | nil => intro b; exact ⟨rfl, fun _ => rfl⟩
  | cons c cs ih =>
    intro b
    simp only [collapseDash]
    by_cases hc : (c == '-') = true
    · rw [if_pos hc]
      cases b with
      | true =>
        rw [if_pos rfl]
        exact ⟨(ih true).1, fun _ => (ih true).2 rfl⟩
      | false =>
        rw [if_neg (by simp)]
        constructor
        · exact noDD_cons (ih true).1 (fun _ => (ih true).2 rfl)
        · intro hb; cases hb
    · rw [if_neg hc]
      constructor
      · refine noDD_cons (ih false).1 (fun hx => absurd hx hc)
      · intro _
        simp only [noLeadDash, Bool.not_eq_true']
        simpa using hc

theorem dropWhile_noLeadDash (l : List Char) :
    noLeadDash (l.dropWhile (· == '-')) = true := by
  induction l with
  | nil => rfl
  | cons c cs ih =>
    by_cases hc : (c == '-') = true
    · rw [List.dropWhile_cons_of_pos (by simpa using hc)]; exact ih
    · rw [List.dropWhile_cons_of_neg (by simpa using hc)]
      simp only [noLeadDash, Bool.not_eq_true']
      simpa using hc

theorem dropWhile_noDD {l : List Char} (h : noDD l = true) :
    noDD (l.dropWhile (· == '-')) = true := by
  induction l with
  | nil => rfl
  | cons c cs ih =>
    by_cases hc : (c == '-') = true
    · rw [List.dropWhile_cons_of_pos (by simpa using hc)]
      exact ih (noDD_tail h)
    · rw [List.dropWhile_cons_of_neg (by simpa using hc)]
      exact h

theorem mem_dropTrailDash : ∀ (l : List Char) (c : Char),
    c ∈ dropTrailDash l → c ∈ l := by
  intro l
  induction l with
  | nil => intro c h; simp [dropTrailDash] at h
  | cons c' cs ih =>
    intro c h
    simp only [dropTrailDash] at h
    cases hr : dropTrailDash cs with
    | nil =>
      rw [hr] at h
      by_cases hc' : (c' == '-') = true
      · rw [if_pos hc'] at h; simp at h
      · rw [if_neg hc'] at h
        rcases List.mem_singleton.mp h with h1
        rw [h1]; exact List.mem_cons_self _ _
    | cons d ds =>
      rw [hr] at h
      rcases List.mem_cons.mp h with h1 | h2
      · rw [h1]; exact List.mem_cons_self _ _
      · exact List.mem_cons_of_mem _ (ih c (hr ▸ h2))

theorem dropTrailDash_head : ∀ (c : Char) (cs : List Char),
    dropTrailDash (c :: cs) = [] ∨ ∃ r, dropTrailDash (c :: cs) = c :: r := by
  intro c cs
  simp only [dropTrailDash]
  cases hr : dropTrailDash cs with
  | nil =>
    by_cases hc : (c == '-') = true
    · rw [if_pos hc]; exact Or.inl rfl
    · rw [if_neg hc]; exact Or.inr ⟨[], rfl⟩
  | cons d ds => exact Or.inr ⟨d :: ds, rfl⟩

theorem dropTrailDash_noTrail : ∀ (l : List Char),
    noTrailDash (dropTrailDash l) = true := by
  intro l
  induction l with
  | nil => rfl
  | cons c cs ih =>
    simp only [dropTrailDash]
    cases hr : dropTrailDash cs with
    | nil =>
      by_cases hc : (c == '-') = true
      · rw [if_pos hc]; rfl
      · rw [if_neg hc]
        simp only [noTrailDash, Bool.not_eq_true']
        simpa using hc
    | cons d ds =>
      rw [hr] at ih
      simpa [noTrailDash] using ih

theorem dropTrailDash_noDD : ∀ (l : List Char), noDD l = true →
    noDD (dropTrailDash l) = true := by
  intro l
  induction l with
  | nil => intro _; rfl
  | cons c cs ih =>
    intro h
    simp only [dropTrailDash]
    cases hr : dropTrailDash cs with
    | nil =>
      by_cases hc : (c == '-') = true
      · rw [if_pos hc]; rfl
      · rw [if_neg hc]; rfl
    | cons d ds =>
      show noDD (c :: d :: ds) = true
      rw [← hr]
      refine noDD_cons (ih (noDD_tail h)) ?_
      intro hcdash
      rw [hr]
      cases cs with
      | nil => simp [dropTrailDash] at hr
      | cons c2 cs2 =>
        rcases dropTrailDash_head c2 cs2 with h0 | ⟨r, h1⟩
        · rw [h0] at hr; cases hr
        · rw [h1] at hr
          injection hr with hd _
          simp only [noDD, Bool.and_eq_true] at h
          have h2 : (c2 == '-') = false := by
            rcases h with ⟨hne, _⟩
            rw [hcdash] at hne
            simpa using hne
          rw [← hd]
          simp only [noLeadDash, Bool.not_eq_true']
          exact h2

theorem dropTrailDash_noLead : ∀ (l : List Char), noLeadDash l = true →
    noLeadDash (dropTrailDash l) = true := by
  intro l h
  cases l with
  | nil => rfl
  | cons c cs =>
    rcases dropTrailDash_head c cs with h0 | ⟨r, h1⟩
    · rw [h0]; rfl
    · rw [h1]
      simpa [noLeadDash] using h

theorem mem_dropWhileDash {p : Char → Bool} : ∀ (l : List Char) (c : Char),
    c ∈ l.dropWhile p → c ∈ l := by
  intro l
  induction l with
  | nil => intro c h; simp at h
  | cons c' cs ih =>
    intro c h
    by_cases hc' : p c' = true
    · rw [List.dropWhile_cons_of_pos hc'] at h
      exact List.mem_cons_of_mem _ (ih c h)
    · rw [List.dropWhile_cons_of_neg (by simpa using hc')] at h
      exact h

theorem map_pyUpperChar_noLead {l : List Char} (h : noLeadDash l = true) :
    noLeadDash (l.map pyUpperChar) = true := by
  cases l with
  | nil => rfl
  | cons c cs =>
    simp only [List.map_cons, noLeadDash, pyUpperChar_dash]
    simpa [noLeadDash] using h

theorem map_pyUpperChar_noTrail : ∀ (l : List Char), noTrailDash l = true →
    noTrailDash (l.map pyUpperChar) = true := by
  intro l
  induction l with
  | nil => intro _; rfl
  | cons c cs ih =>
    intro h
    cases cs with
    | nil =>
      simp only [List.map_cons, List.map_nil, noTrailDash, pyUpperChar_dash]
      simpa [noTrailDash] using h
    | cons d ds =>
      simp only [List.map_cons] at ih ⊢
      simp only [noTrailDash] at h ⊢
      exact ih h

theorem map_pyUpperChar_noDD : ∀ (l : List Char), noDD l = true →
    noDD (l.map pyUpperChar) = true := by
  intro l
  induction l with
  | nil => intro _; rfl
  | cons c cs ih =>
    intro h
    cases cs with
    | nil => rfl
    | cons d ds =>
      simp only [List.map_cons] at ih ⊢
      simp only [noDD, Bool.and_eq_true, pyUpperChar_dash] at h ⊢
      exact ⟨h.1, ih h.2⟩

/-- The output of the sanitizer pipeline satisfies the component contract:
only `[A-Z0-9\-_]` characters, no leading or trailing dash, and no run of
dashes longer than one. -/
theorem sanitizeList_ok (l : List Char) :
    (∀ c ∈ sanitizeList l, okChar c = true) ∧
    noLeadDash (sanitizeList l) = true ∧
    noTrailDash (sanitizeList l) = true ∧
    noDD (sanitizeList l) = true := by
  unfold sanitizeList stripDash
  set l1 := subIllegal false (pyStripWSList l) with hl1
  have hleg1 : ∀ c ∈ l1, isLegal c = true := fun c hc => mem_subIllegal _ _ c hc
  set l2 := collapseDash false l1 with hl2
  have hleg2 : ∀ c ∈ l2, isLegal c = true := by
    intro c hc
    rcases mem_collapseDash _ _ c hc with h1 | h2
    · exact hleg1 c h1
    · rw [h2]; decide
  have hdd2 : noDD l2 = true := (collapseDash_shape l1 false).1
  set l3 := dropTrailDash (l2.dropWhile (· == '-')) with hl3
  have hleg3 : ∀ c ∈ l3, isLegal c = true := by
    intro c hc
    exact hleg2 c (mem_dropWhileDash _ _ (mem_dropTrailDash _ c hc))
  have hlead3 : noLeadDash l3 = true :=
    dropTrailDash_noLead _ (dropWhile_noLeadDash l2)
  have htrail3 : noTrailDash l3 = true := dropTrailDash_noTrail _
  have hdd3 : noDD l3 = true := dropTrailDash_noDD _ (dropWhile_noDD hdd2)
  refine ⟨?_, ?_, ?_, ?_⟩
  · intro c hc
    rcases List.mem_map.mp hc with ⟨a, ha, hac⟩
    rw [← hac]
    exact okChar_pyUpperChar (hleg3 a ha)
  · exact map_pyUpperChar_noLead hlead3
  · exact map_pyUpperChar_noTrail _ htrail3
  · exact map_pyUpperChar_noDD _ hdd3

/-! ## Identity of each stage on already-sanitized output -/

theorem dropWhile_eq_self_of {p : Char → Bool} :
    ∀ (l : List Char), (∀ c ∈ l, p c = false) → l.dropWhile p = l := by
  intro l h
  cases l with
  | nil => rfl
  | cons c cs =>
    rw [List.dropWhile_cons_of_neg]
    simp [h c (List.mem_cons_self _ _)]

theorem pyStripWSList_id {l : List Char} (h : ∀ c ∈ l, okChar c = true) :
    pyStripWSList l = l := by
  unfold pyStripWSList
  rw [dropWhile_eq_self_of _ (fun c hc => okChar_not_pySpace (h c hc))]
  rw [dropWhile_eq_self_of _ (fun c hc =>
    okChar_not_pySpace (h c (List.mem_reverse.mp hc)))]
  exact List.reverse_reverse l

theorem subIllegal_id : ∀ (l : List Char), (∀ c ∈ l, isLegal c = true) →
    subIllegal false l = l := by
  intro l
  induction l with
  | nil => intro _; rfl
  | cons c cs ih =>
    intro h
    simp only [subIllegal]
    rw [if_pos (h c (List.mem_cons_self _ _))]
    rw [ih (fun a ha => h a (List.mem_cons_of_mem _ ha))]

theorem collapseDash_id : ∀ (l : List Char), noDD l = true →
    collapseDash false l = l ∧
      (noLeadDash l = true → collapseDash true l = l) := by
  intro l
  induction l with
  | nil => intro _; exact ⟨rfl, fun _ => rfl⟩
  | cons c cs ih =>
    intro h
    have ihcs := ih (noDD_tail h)
    by_cases hc : (c == '-') = true
    · have hcs : collapseDash true cs = cs := by
        apply ihcs.2
        cases cs with
        | nil => rfl
        | cons d ds =>
          simp only [noDD, Bool.and_eq_true] at h
          rcases h with ⟨hne, _⟩
          rw [hc] at hne
          simp only [noLeadDash, Bool.not_eq_true']
          simpa using hne
      constructor
      · simp only [collapseDash]
        rw [if_pos hc, if_neg (by simp), hcs]
        have : c = '-' := by simpa using hc
        rw [this]
      · intro hlead
        simp only [noLeadDash, Bool.not_eq_true'] at hlead
        rw [hc] at hlead
        cases hlead
    · constructor
      · simp only [collapseDash]
        rw [if_neg hc, ihcs.1]
      · intro _
        simp only [collapseDash]
        rw [if_neg hc, ihcs.1]

theorem dropTrailDash_id : ∀ (l : List Char), noTrailDash l = true →
    dropTrailDash l = l := by
  intro l
  induction l with
  | nil => intro _; rfl
  | cons c cs ih =>
    intro h
    cases cs with
    | nil =>
      simp only [dropTrailDash]
      rw [if_neg]
      simp only [noTrailDash, Bool.not_eq_true'] at h
      simp [h]
    | cons d ds =>
      have hcs : dropTrailDash (d :: ds) = d :: ds := by
        apply ih
        simpa [noTrailDash] using h
      have hstep : dropTrailDash (c :: d :: ds) =
          match dropTrailDash (d :: ds) with
          | [] => if (c == '-') = true then [] else [c]
          | r => c :: r := rfl
      rw [hstep, hcs]

theorem map_pyUpperChar_id {l : List Char} (h : ∀ c ∈ l, okChar c = true) :
    l.map pyUpperChar = l := by
  induction l with
  | nil => rfl
  | cons c cs ih =>
    simp only [List.map_cons]
    rw [okChar_pyUpperChar_id (h c (List.mem_cons_self _ _))]
    rw [ih (fun a ha => h a (List.mem_cons_of_mem _ ha))]

theorem stripDashLead_id {l : List Char} (h : noLeadDash l = true) :
    l.dropWhile (· == '-') = l := by
  cases l with
  | nil => rfl
  | cons c cs =>
    simp only [noLeadDash, Bool.not_eq_true'] at h
    rw [List.dropWhile_cons_of_neg]
    simp [h]

theorem sanitizeList_idem (l : List Char) :
    sanitizeList (sanitizeList l) = sanitizeList l := by
  obtain ⟨hok, hlead, htrail, hdd⟩ := sanitizeList_ok l
  conv_lhs => rw [sanitizeList]
  rw [pyStripWSList_id hok]
  rw [subIllegal_id _ (fun c hc => okChar_isLegal (hok c hc))]
  rw [(collapseDash_id _ hdd).1]
  unfold stripDash
  rw [stripDashLead_id hlead]
  rw [dropTrailDash_id _ htrail]
  exact map_pyUpperChar_id hok

/-! ## Regular-expression matchers for the spec's output contract

`^[A-Z0-9](-?[A-Z0-9_])*$` is matched deterministically: each iteration of
`(-?[A-Z0-9_])*` consumes an optional `'-'` followed by exactly one
`[A-Z0-9_]`, so a suffix matches the starred group iff whenever it starts
with `'-'` the next character exists and is in `[A-Z0-9_]`. -/

/-- `[A-Z0-9]`, the first-character class of the spec's regex. -/
def specHeadChar (c : Char) : Bool :=
  (65 ≤ c.toNat && c.toNat ≤ 90) || (48 ≤ c.toNat && c.toNat ≤ 57)

/-- `[A-Z0-9_]`, the repeated-character class of the regex. -/
def specBodyChar (c : Char) : Bool :=
  specHeadChar c || c.toNat == 95

/-- Matcher for `(-?[A-Z0-9_])*$`.  On a single character a leading `'-'`
cannot be completed, and `specBodyChar '-' = false`, so the one-character
case is `!(c == '-') && specBodyChar c`. -/
def reTail : List Char → Bool
  | [] => true
  | [c] => !(c == '-') && specBodyChar c
  | c :: d :: ds =>
    if c == '-' then specBodyChar d && reTail ds
    else specBodyChar c && reTail (d :: ds)

/-- Matcher for the spec's `^[A-Z0-9](-?[A-Z0-9_])*$`. -/
def specRegexMatch : List Char → Bool
  | [] => false
  | c :: cs => specHeadChar c && reTail cs

/-- Matcher for the amended `^[A-Z0-9_](-?[A-Z0-9_])*$` (the first character
class also admits `'_'`, which the sanitizer can emit). -/
def amendedRegexMatch : List Char → Bool
  | [] => false
  | c :: cs => specBodyChar c && reTail cs

theorem noTrailDash_tail {x : Char} {xs : List Char}
    (h : noTrailDash (x :: xs) = true) : noTrailDash xs = true := by
  cases xs with
  | nil => rfl
  | cons y ys => simpa [noTrailDash] using h

theorem specBodyChar_of_okChar {c : Char} (h1 : okChar c = true)
    (h2 : (c == '-') = false) : specBodyChar c = true := by
  rw [char_beq_toNat] at h2
  have h45 : Char.toNat '-' = 45 := rfl
  rw [h45] at h2
  simp only [beq_eq_false_iff_ne, ne_eq] at h2
  simp only [okChar, Bool.or_eq_true, Bool.and_eq_true, decide_eq_true_eq,
    Nat.beq_eq_true_eq] at h1
  simp only [specBodyChar, specHeadChar, Bool.or_eq_true, Bool.and_eq_true,
    decide_eq_true_eq, Nat.beq_eq_true_eq]
  omega

theorem reTail_of_shape : ∀ (n : Nat) (l : List Char), l.length ≤ n →
    (∀ c ∈ l, okChar c = true) → noDD l = true → noTrailDash l = true →
    reTail l = true := by
  intro n
  induction n with
  | zero =>
    intro l hl _ _ _
    have : l = [] := List.length_eq_zero.mp (Nat.le_zero.mp hl)
    rw [this]; rfl
  | succ n ih =>
    intro l hl hok hdd htrail
    cases l with
    | nil => rfl
    | cons c cs =>
      cases cs with
      | nil =>
        simp only [noTrailDash, Bool.not_eq_true'] at htrail
        simp only [reTail, Bool.and_eq_true, Bool.not_eq_true']
        exact ⟨htrail, specBodyChar_of_okChar (hok c (List.mem_cons_self _ _)) htrail⟩
      | cons d ds =>
        simp only [reTail]
        by_cases hc : (c == '-') = true
        · rw [if_pos hc]
          have hd_ndash : (d == '-') = false := by
            simp only [noDD, Bool.and_eq_true] at hdd
            rcases hdd with ⟨hne, _⟩
            rw [hc] at hne
            simpa using hne
          have hbody : specBodyChar d = true :=
            specBodyChar_of_okChar
              (hok d (List.mem_cons_of_mem _ (List.mem_cons_self _ _))) hd_ndash
          have htail : reTail ds = true := by
            apply ih ds
            · simp only [List.length_cons] at hl; omega
            · intro a ha
              exact hok a (List.mem_cons_of_mem _ (List.mem_cons_of_mem _ ha))
            · exact noDD_tail (noDD_tail hdd)
            · exact noTrailDash_tail (noTrailDash_tail htrail)
          rw [hbody, htail]; rfl
        · rw [if_neg hc]
          have hbody : specBodyChar c = true :=
            specBodyChar_of_okChar (hok c (List.mem_cons_self _ _))
              (by simpa using hc)
          have htail : reTail (d :: ds) = true := by
            apply ih (d :: ds)
            · simp only [List.length_cons] at hl ⊢; omega
            · intro a ha; exact hok a (List.mem_cons_of_mem _ ha)
            · exact noDD_tail hdd
            · exact noTrailDash_tail htrail
          rw [hbody, htail]; rfl

theorem amendedRegexMatch_of_shape {l : List Char} (hne : l ≠ [])
    (hok : ∀ c ∈ l, okChar c = true) (hlead : noLeadDash l = true)
    (htrail : noTrailDash l = true) (hdd : noDD l = true) :
    amendedRegexMatch l = true := by
  cases l with
  | nil => exact absurd rfl hne
  | cons c cs =>
    simp only [amendedRegexMatch]
    have hcd : (c == '-') = false := by
      simp only [noLeadDash, Bool.not_eq_true'] at hlead
      exact hlead
    have hbody : specBodyChar c = true :=
      specBodyChar_of_okChar (hok c (List.mem_cons_self _ _)) hcd
    have htail : reTail cs = true :=
      reTail_of_shape cs.length cs (Nat.le_refl _)
        (fun a ha => hok a (List.mem_cons_of_mem _ ha))
        (noDD_tail hdd) (noTrailDash_tail htrail)
    rw [hbody, htail]; rfl

/-! ## Decimal representation of naturals (Python's `str(idx)`) -/

/-- The ASCII digit character for `d % 10`. -/
def digitChar10 (d : Nat) : Char :=
  Char.ofNatAux (48 + d % 10) (Or.inl (by omega))

/-- Most-significant-first decimal digit list, fuel-based; `fuel ≥ n + 1` is
always enough fuel. -/
def reprAux : Nat → Nat → List Char → List Char
  | 0, _, acc => acc
  | fuel + 1, n, acc =>
    if n < 10 then digitChar10 n :: acc
    else reprAux fuel (n / 10) (digitChar10 (n % 10) :: acc)

/-- Decimal string of a natural number, as Python's `str`. -/
def natRepr (n : Nat) : String := ⟨reprAux (n + 1) n []⟩

/-- Recursive specification of the decimal digit list. -/
def digitsOf (n : Nat) : List Char :=
  if n < 10 then [digitChar10 n]
  else digitsOf (n / 10) ++ [digitChar10 (n % 10)]
decreasing_by exact Nat.div_lt_self (by omega) (by decide)

theorem reprAux_eq (n : Nat) : ∀ (fuel : Nat) (acc : List Char), n < fuel →
    reprAux fuel n acc = digitsOf n ++ acc := by
  induction n using Nat.strong_induction_on with
  | _ n ih =>
    intro fuel acc hfuel
    cases fuel with
    | zero => omega
    | succ f =>
      by_cases h10 : n < 10
      · simp only [reprAux, if_pos h10]
        rw [digitsOf, if_pos h10]
        rfl
      · simp only [reprAux, if_neg h10]
        have hdiv : n / 10 < n := Nat.div_lt_self (by omega) (by decide)
        rw [ih (n / 10) hdiv f (digitChar10 (n % 10) :: acc) (by omega)]
        conv_rhs => rw [digitsOf, if_neg h10]
        simp

/-- Reading the digit list back as a number. -/
def digitsVal (l : List Char) : Nat :=
  l.foldl (fun a c => 10 * a + (c.toNat - 48)) 0

theorem digitChar10_toNat (d : Nat) : (digitChar10 d).toNat = 48 + d % 10 := rfl

theorem digitsVal_digitsOf (n : Nat) : digitsVal (digitsOf n) = n := by
  induction n using Nat.strong_induction_on with
  | _ n ih =>
    by_cases h10 : n < 10
    · rw [digitsOf, if_pos h10]
      simp only [digitsVal, List.foldl_cons, List.foldl_nil, digitChar10_toNat]
      omega
    · rw [digitsOf, if_neg h10]
      have hdiv : n / 10 < n := Nat.div_lt_self (by omega) (by decide)
      simp only [digitsVal, List.foldl_append, List.foldl_cons, List.foldl_nil,
        digitChar10_toNat]
      have hv := ih (n / 10) hdiv
      simp only [digitsVal] at hv
      rw [hv]
      omega

theorem natRepr_data (n : Nat) : (natRepr n).data = digitsOf n := by
  show reprAux (n + 1) n [] = digitsOf n
  rw [reprAux_eq n (n + 1) [] (by omega)]
  simp

theorem natRepr_inj {a b : Nat} (h : natRepr a = natRepr b) : a = b := by
  have hd : digitsOf a = digitsOf b := by
    rw [← natRepr_data, ← natRepr_data, h]
  rw [← digitsVal_digitsOf a, ← digitsVal_digitsOf b, hd]

/-! ## The name planner (`src/core/planner.py`) -/

/-- The candidate stem `f"\x7bbase\x7d-\x7bidx\x7d"`. -/
def stemOf (b : String) (n : Nat) : String := b ++ "-" ++ natRepr n

theorem string_data_append (s t : String) : (s ++ t).data = s.data ++ t.data := rfl

theorem stemOf_inj (b : String) {n m : Nat} (h : stemOf b n = stemOf b m) :
    n = m := by
  have hd : (stemOf b n).data = (stemOf b m).data := by rw [h]
  simp only [stemOf, string_data_append] at hd
  have h2 := List.append_cancel_left hd
  exact natRepr_inj (String.ext h2)

/-- Fresh suffixes always exist: the stems `base-1, base-2, …` are pairwise
distinct while the index is finite. -/
theorem exists_free_stem (b : String) (idx : Finset String) :
    ∃ k, stemOf b (k + 1) ∉ idx := by
  by_contra hcon
  push_neg at hcon
  have hsub : (Finset.range (idx.card + 1)).image (fun k => stemOf b (k + 1)) ⊆ idx := by
    intro s hs
    rcases Finset.mem_image.mp hs with ⟨k, _, rfl⟩
    exact hcon k
  have hcard := Finset.card_le_card hsub
  rw [Finset.card_image_of_injOn] at hcard
  · rw [Finset.card_range] at hcard; omega
  · intro k1 _ k2 _ hk
    have := stemOf_inj b hk
    omega

/-- The zero-based index of the first free suffix: `planFreeIdx b idx + 1`
is the suffix the `while` loop of `plan_name` stops at. -/
def planFreeIdx (b : String) (idx : Finset String) : Nat :=
  Nat.find (exists_free_stem b idx)

/-- The loop body of `plan_name` for `duplicates=True`: find the first free
stem, reserve it in the index (`existing.add(stem)`), and return it.  The
Python set mutation is modelled by returning the updated index. -/
def planStem (b : String) (idx : Finset String) : String × Finset String :=
  let stem := stemOf b (planFreeIdx b idx + 1)
  (stem, insert stem idx)

/-- `plan_name` from `src/core/planner.py`, lines 18-36.  `existing` is the
mutable set of occupied stems; the updated set is returned alongside the
final file name. -/
def plan_name (base ext : String) (existing : Finset String)
    (duplicates : Bool) : String × Finset String :=
  let b := sanitize_and_upper base
  let e := pyLower ext
  if duplicates = false then (b ++ e, existing)
  else
    let r := planStem b existing
    (r.1 ++ e, r.2)

theorem planStem_not_mem (b : String) (idx : Finset String) :
    (planStem b idx).1 ∉ idx :=
  Nat.find_spec (exists_free_stem b idx)

theorem planStem_least (b : String) (idx : Finset String) :
    ∀ m, 1 ≤ m → m < planFreeIdx b idx + 1 → stemOf b m ∈ idx := by
  intro m h1 h2
  obtain ⟨k, rfl⟩ : ∃ k, m = k + 1 := ⟨m - 1, by omega⟩
  have hk : k < planFreeIdx b idx := by omega
  have := Nat.find_min (exists_free_stem b idx) hk
  simpa using this

/-! ## Filesystem model and `two_phase_rename` -/

/-- A filesystem path: directory plus file name (Python `Path.parent` and
`Path.name`; `with_name` keeps the directory). -/
structure FsPath where
  dir : String
  name : String
deriving DecidableEq, Repr

/-- Filesystem state: an association list from paths to abstract file
contents.  A well-formed state has pairwise-distinct paths. -/
abbrev Fs := List (FsPath × Nat)

/-- `p.exists()`. -/
def fsExists (p : FsPath) (fs : Fs) : Bool := (List.lookup p fs).isSome

/-- `os.rename` with the semantics it has on Windows, the platform this
desktop GUI targets: it raises — changing nothing — when the source is
missing or the destination already exists, and otherwise moves the entry.
`none` models a raised `OSError`.  (On POSIX a rename onto an existing file
would instead overwrite it; the inline comments of `two_phase_rename` —
"目标已存在则失败", "回滚…可能也失败" — assume the refusing behaviour.) -/
def fsRename (src dst : FsPath) (fs : Fs) : Option Fs :=
  if fsExists src fs = false then none
  else if fsExists dst fs then none
  else (List.lookup src fs).map
    (fun v => (dst, v) :: List.eraseP (fun e => src == e.1) fs)

/-- `str.startswith` on char lists. -/
def startsWithList : List Char → List Char → Bool
  | [], _ => true
  | _ :: _, [] => false
  | p :: ps, c :: cs => p == c && startsWithList ps cs

/-- `str.replace(pat, rep)`: replace non-overlapping occurrences left to
right.  Fuel-based so that it evaluates by kernel reduction; fuel
`s.length` suffices because each step consumes at least one character when
`pat` is nonempty.  (The only call site uses `pat = "__TMP__"`; Python's
behaviour for an empty pattern is not modelled.) -/
def replaceAux (pat rep : List Char) : Nat → List Char → List Char
  | _, [] => []
  | 0, l => l
  | fuel + 1, c :: cs =>
    if startsWithList pat (c :: cs) then
      rep ++ replaceAux pat rep fuel (List.drop pat.length (c :: cs))
    else c :: replaceAux pat rep fuel cs

/-- `s.replace(pat, rep)` for strings (nonempty `pat`). -/
def pyReplace (s pat rep : String) : String :=
  if pat.data = [] then s
  else ⟨replaceAux pat.data rep.data s.data.length s.data⟩

/-- The quarantine path
`src.with_name(f"__TMP__\x7buuid4().hex\x7d__\x7bsrc.name\x7d")`; the
random hex token is supplied as a parameter. -/
def tmpPath (src : FsPath) (tok : String) : FsPath :=
  ⟨src.dir, "__TMP__" ++ tok ++ "__" ++ src.name⟩

/-- Stage 1 of `two_phase_rename`: quarantine every still-existing source
under its temporary name and record `tmp → dst` in order.  A source that
vanished is skipped; a failed quarantine rename is swallowed by
`except: pass` and the pair is silently dropped (it never reaches
`tmp_map`, so stage 2 skips it and it is not counted). -/
def stage1 : Fs → List ((FsPath × FsPath) × String) → Fs × List (FsPath × FsPath)
  | fs, [] => (fs, [])
  | fs, ((src, dst), tok) :: rest =>
    if fsExists src fs = false then stage1 fs rest
    else
      match fsRename src (tmpPath src tok) fs with
      | some fs2 =>
        let r := stage1 fs2 rest
        (r.1, (tmpPath src tok, dst) :: r.2)
      | none => stage1 fs rest

/-- Stage 2 of `two_phase_rename`: commit each `tmp → dst`.  If `dst`
exists the pair fails and a best-effort rollback renames the temp file to
`dst.with_name(dst.name.replace("__TMP__", ""))` — note the source strips
the marker from the DESTINATION name, so for ordinary destinations
`orig = dst`, which is occupied, and the rollback raises and is swallowed,
leaving the file at its quarantine name.  A raised commit rename counts as
a failure. -/
def stage2 : Fs → List (FsPath × FsPath) → Nat → Nat → Fs × Nat × Nat
  | fs, [], ok, failed => (fs, ok, failed)
  | fs, (tmp, dst) :: rest, ok, failed =>
    if fsExists dst fs then
      let orig : FsPath := ⟨dst.dir, pyReplace dst.name "__TMP__" ""⟩
      let fs2 := (fsRename tmp orig fs).getD fs
      stage2 fs2 rest ok (failed + 1)
    else
      match fsRename tmp dst fs with
      | some fs2 => stage2 fs2 rest (ok + 1) failed
      | none => stage2 fs rest ok (failed + 1)

/-- `two_phase_rename` from `src/Tagtool/core/utils.py`, lines 61-95, over
the filesystem model; `toks` supplies the per-pair random uuid tokens. -/
def two_phase_rename (fs : Fs) (pairs : List (FsPath × FsPath))
    (toks : List String) : Fs × Nat × Nat :=
  let s1 := stage1 fs (pairs.zip toks)
  stage2 s1.1 s1.2 0 0

/-- `perform_batch_rename` from `src/core/renamer.py`, lines 18-21. -/
def perform_batch_rename (fs : Fs) (pairs : List (FsPath × FsPath))
    (toks : List String) (dry_run : Bool) : Fs × Nat × Nat :=
  if dry_run then (fs, 0, 0) else two_phase_rename fs pairs toks

/-! ## No content is ever lost, and paths stay pairwise distinct -/

theorem lookup_eraseP_perm {fs : Fs} {src : FsPath} {v : Nat}
    (h : List.lookup src fs = some v) :
    List.Perm ((src, v) :: List.eraseP (fun e => src == e.1) fs) fs := by
  induction fs with
  | nil => simp [List.lookup] at h
  | cons kv t ih =>
    obtain ⟨k, w⟩ := kv
    by_cases hk : (src == k) = true
    · have hk1 : (src == (k, w).1) = true := hk
      simp only [List.lookup, hk] at h
      injection h with hv
      rw [List.eraseP_cons, hk1, cond_true]
      have hsk : src = k := by simpa using hk
      rw [hsk, hv]
    · have hk1 : (src == (k, w).1) = false := by simpa using hk
      simp only [List.lookup, hk] at h
      rw [List.eraseP_cons, hk1, cond_false]
      exact ((List.Perm.swap _ _ _).trans ((ih h).cons _))

theorem fsRename_perm {src dst : FsPath} {fs fs2 : Fs}
    (h : fsRename src dst fs = some fs2) :
    List.Perm (fs2.map Prod.snd) (fs.map Prod.snd) := by
  unfold fsRename at h
  by_cases h1 : fsExists src fs = false
  · rw [if_pos h1] at h; cases h
  · rw [if_neg h1] at h
    by_cases h2 : fsExists dst fs = true
    · rw [if_pos h2] at h; cases h
    · rw [if_neg h2] at h
      cases hl : List.lookup src fs with
      | none => rw [hl] at h; cases h
      | some v =>
        rw [hl] at h
        injection h with h
        rw [← h]
        have hp := (lookup_eraseP_perm hl).map Prod.snd
        simpa using hp

theorem lookup_none_not_mem {p : FsPath} {fs : Fs}
    (h : List.lookup p fs = none) : p ∉ fs.map Prod.fst := by
  induction fs with
  | nil => simp
  | cons kv t ih =>
    obtain ⟨k, w⟩ := kv
    by_cases hk : (p == k) = true
    · simp only [List.lookup, hk] at h
      cases h
    · simp only [List.lookup, hk] at h
      simp only [List.map_cons, List.mem_cons]
      rintro (h1 | h2)
      · rw [h1] at hk; simp at hk
      · exact ih h h2

theorem fsRename_nodup {src dst : FsPath} {fs fs2 : Fs}
    (h : fsRename src dst fs = some fs2)
    (hn : (fs.map Prod.fst).Nodup) : (fs2.map Prod.fst).Nodup := by
  unfold fsRename at h
  by_cases h1 : fsExists src fs = false
  · rw [if_pos h1] at h; cases h
  · rw [if_neg h1] at h
    by_cases h2 : fsExists dst fs = true
    · rw [if_pos h2] at h; cases h
    · rw [if_neg h2] at h
      cases hl : List.lookup src fs with
      | none => rw [hl] at h; cases h
      | some v =>
        rw [hl] at h
        injection h with h
        rw [← h]
        have hsub : List.Sublist (List.eraseP (fun e => src == e.1) fs) fs :=
          List.eraseP_sublist fs
        have hsubm := hsub.map Prod.fst
        refine List.Nodup.cons ?_ (hsubm.nodup hn)
        intro hmem
        have hdn : List.lookup dst fs = none := by
          simp only [fsExists, Bool.not_eq_true] at h2
          exact Option.not_isSome_iff_eq_none.mp (by simp [h2])
        exact lookup_none_not_mem hdn (hsubm.mem hmem)

theorem stage1_perm : ∀ (l : List ((FsPath × FsPath) × String)) (fs : Fs),
    List.Perm ((stage1 fs l).1.map Prod.snd) (fs.map Prod.snd) := by
  intro l
  induction l with
  | nil => intro fs; exact List.Perm.refl _
  | cons e rest ih =>
    intro fs
    obtain ⟨⟨src, dst⟩, tok⟩ := e
    simp only [stage1]
    by_cases hex : fsExists src fs = false
    · rw [if_pos hex]; exact ih fs
    · rw [if_neg hex]
      cases hr : fsRename src (tmpPath src tok) fs with
      | some fs2 => exact (ih fs2).trans (fsRename_perm hr)
      | none => exact ih fs

theorem stage1_nodup : ∀ (l : List ((FsPath × FsPath) × String)) (fs : Fs),
    (fs.map Prod.fst).Nodup → ((stage1 fs l).1.map Prod.fst).Nodup := by
  intro l
  induction l with
  | nil => intro fs h; exact h
  | cons e rest ih =>
    intro fs h
    obtain ⟨⟨src, dst⟩, tok⟩ := e
    simp only [stage1]
    by_cases hex : fsExists src fs = false
    · rw [if_pos hex]; exact ih fs h
    · rw [if_neg hex]
      cases hr : fsRename src (tmpPath src tok) fs with
      | some fs2 => exact ih fs2 (fsRename_nodup hr h)
      | none => exact ih fs h

theorem stage2_perm : ∀ (m : List (FsPath × FsPath)) (fs : Fs) (ok failed : Nat),
    List.Perm ((stage2 fs m ok failed).1.map Prod.snd) (fs.map Prod.snd) := by
  intro m
  induction m with
  | nil => intro fs ok failed; exact List.Perm.refl _
  | cons e rest ih =>
    intro fs ok failed
    obtain ⟨tmp, dst⟩ := e
    simp only [stage2]
    by_cases hd : fsExists dst fs = true
    · rw [if_pos hd]
      cases hr : fsRename tmp ⟨dst.dir, pyReplace dst.name "__TMP__" ""⟩ fs with
      | some fs2 =>
        simp only [hr, Option.getD_some]
        exact (ih fs2 ok (failed + 1)).trans (fsRename_perm hr)
      | none =>
        simp only [hr, Option.getD_none]
        exact ih fs ok (failed + 1)
    · rw [if_neg hd]
      cases hr : fsRename tmp dst fs with
      | some fs2 => exact (ih fs2 (ok + 1) failed).trans (fsRename_perm hr)
      | none => exact ih fs ok (failed + 1)

theorem stage2_nodup : ∀ (m : List (FsPath × FsPath)) (fs : Fs) (ok failed : Nat),
    (fs.map Prod.fst).Nodup → ((stage2 fs m ok failed).1.map Prod.fst).Nodup := by
  intro m
  induction m with
  | nil => intro fs ok failed h; exact h
  | cons e rest ih =>
    intro fs ok failed h
    obtain ⟨tmp, dst⟩ := e
    simp only [stage2]
    by_cases hd : fsExists dst fs = true
    · rw [if_pos hd]
      cases hr : fsRename tmp ⟨dst.dir, pyReplace dst.name "__TMP__" ""⟩ fs with
      | some fs2 =>
        simp only [hr, Option.getD_some]
        exact ih fs2 ok (failed + 1) (fsRename_nodup hr h)
      | none =>
        simp only [hr, Option.getD_none]
        exact ih fs ok (failed + 1) h
    · rw [if_neg hd]
      cases hr : fsRename tmp dst fs with
      | some fs2 => exact ih fs2 (ok + 1) failed (fsRename_nodup hr h)
      | none => exact ih fs ok (failed + 1) h

/-- No content value is ever created or destroyed by `two_phase_rename`:
the multiset of file contents after the call is a permutation of the
multiset before. -/
theorem two_phase_rename_perm (fs : Fs) (pairs : List (FsPath × FsPath))
    (toks : List String) :
    List.Perm ((two_phase_rename fs pairs toks).1.map Prod.snd)
      (fs.map Prod.snd) := by
  unfold two_phase_rename
  exact (stage2_perm _ _ 0 0).trans (stage1_perm _ fs)

/-- Paths stay pairwise distinct: no two files ever share a final path. -/
theorem two_phase_rename_nodup (fs : Fs) (pairs : List (FsPath × FsPath))
    (toks : List String) (h : (fs.map Prod.fst).Nodup) :
    ((two_phase_rename fs pairs toks).1.map Prod.fst).Nodup := by
  unfold two_phase_rename
  exact stage2_nodup _ _ 0 0 (stage1_nodup _ fs h)

/-! ## OCR client (`src/core/ocr_client.py`) -/

/-- `OCRClient.ocr`, lines 89-97.  `cfgKey` is `cfg.api_key` and `envKey`
the `ARK_API_KEY` environment variable; the empty string models Python's
`None`, and `or` takes the first truthy value.  The texts produced by the
external SDK and REST calls are parameters: `ocr` returns the SDK text
when non-empty, otherwise the REST result; with no API key it returns
`"UNKNOWN"` without calling either. -/
def ocrClientOcr (cfgKey envKey sdkResult restResult : String) : String :=
  let apiKey := if cfgKey ≠ "" then cfgKey else envKey
  if apiKey = "" then "UNKNOWN"
  else if sdkResult ≠ "" then sdkResult else restResult

/-- The orchestrator's no-text test (`ai_task_page.py`, line 171):
`not ocr_text or ocr_text.startswith("[OCR错误]")`. -/
def isNoText (t : String) : Bool :=
  t == "" || startsWithList "[OCR错误]".data t.data

/-! ## The batch orchestrator (`AiWorker.run`, `ai_task_page.py`) -/

/-- One ledger row `[src_dir, old_name, ocr_text, base, final_name, status]`. -/
structure LedgerRow where
  srcDir : String
  oldName : String
  ocrText : String
  base : String
  finalName : String
  status : String
deriving DecidableEq, Repr

/-- Per-image input: the image's location together with the outcomes of the
external collaborators (image decoding, detector, OCR), which the
orchestrator only observes.  `firstSeg` is the first path segment of the
image's parent relative to the input root (the root's own name when the
image sits directly inside it), as computed on lines 122-126. -/
structure ImgInput where
  dir : String
  name : String
  suffix : String
  firstSeg : String
  openOk : Bool
  detClasses : List String
  ocrText : String
deriving DecidableEq, Repr

/-- The per-run mutable state threaded through the image loop. -/
structure RunState where
  existingMap : List (String × Finset String)
  rows : List LedgerRow
  pairs : List (FsPath × FsPath)
deriving DecidableEq

/-- Replace the binding of `k` (the in-place `existing_map[sub_out]` update). -/
def setAssoc (k : String) (v : Finset String) :
    List (String × Finset String) → List (String × Finset String)
  | [] => []
  | (k2, v2) :: t => if k2 = k then (k, v) :: t else (k2, v2) :: setAssoc k v t

/-- The body of the per-image loop of `AiWorker.run` (lines 119-180).
`collectExisting` stands for `collect_existing_basenames` applied to the
initial contents of each output sub-directory (seeded lazily per
directory, line 136-137).  Directory creation, one-time cleaning and crop
saving touch no state observed by the claims and are not modelled. -/
def processImage (outBase target : String) (duplicates : Bool)
    (collectExisting : String → Finset String) (st : RunState)
    (img : ImgInput) : RunState :=
  let subOut := outBase ++ "/" ++ img.firstSeg ++ "_output"
  let m := if (List.lookup subOut st.existingMap).isSome then st.existingMap
           else (subOut, collectExisting subOut) :: st.existingMap
  if img.openOk = false then
    { st with
      existingMap := m
      rows := st.rows ++ [⟨img.dir, img.name, "", "", "", "READ_FAIL"⟩] }
  else if img.detClasses.filter
      (fun c => pyLower (pyStrip c) == pyLower (pyStrip target)) = [] then
    { st with
      existingMap := m
      rows := st.rows ++ [⟨img.dir, img.name, "", "", "", "NO_DET"⟩] }
  else if isNoText img.ocrText then
    { st with
      existingMap := m
      rows := st.rows ++ [⟨img.dir, img.name, img.ocrText, "", "", "NO_TEXT"⟩] }
  else
    let base := sanitize_and_upper img.ocrText
    let ex := (List.lookup subOut m).getD ∅
    let r := plan_name base (pyLower img.suffix) ex duplicates
    { existingMap := setAssoc subOut r.2 m
      rows := st.rows ++ [⟨img.dir, img.name, img.ocrText, base, r.1, "PLANNED"⟩]
      pairs := st.pairs ++ [(⟨img.dir, img.name⟩, ⟨subOut, r.1⟩)] }

/-- The image loop with the cooperative cancel check at the top of each
iteration (`self._cancel.is_set()`, modelled as a predicate on the 1-based
image index). -/
def runLoop (outBase target : String) (duplicates : Bool)
    (collectExisting : String → Finset String) (cancel : Nat → Bool) :
    Nat → RunState → List ImgInput → RunState
  | _, st, [] => st
  | i, st, img :: rest =>
    if cancel i then st
    else runLoop outBase target duplicates collectExisting cancel (i + 1)
      (processImage outBase target duplicates collectExisting st img) rest

/-- The fixed CSV header (`src/core/renamer.py`, line 15). -/
def csvHeader : List String :=
  ["src_dir", "old_name", "ocr_text", "base", "final_name", "status"]

/-- `write_mapping_csv` from `src/core/renamer.py`, lines 11-16: the
written table as the header row followed by the data rows. -/
def write_mapping_csv (rows : List LedgerRow) : List (List String) :=
  csvHeader :: rows.map
    (fun r => [r.srcDir, r.oldName, r.ocrText, r.base, r.finalName, r.status])

/-- The observable outcome of one `AiWorker.run`. -/
structure RunResult where
  code : Nat
  total : Nat
  planned : Nat
  renamedOk : Nat
  renamedFail : Nat
  ledger : Option (List (List String))
  rows : List LedgerRow
  fsAfter : Fs
deriving DecidableEq, Repr

/-- `AiWorker.run` (`ai_task_page.py`, lines 73-197).  When `images` is
empty the method logs a warning and returns early (lines 103-106), BEFORE
`write_mapping_csv` — no ledger is written (`ledger = none`).  Otherwise
it runs the loop, writes the ledger, and performs the batch rename, which
is a no-op returning `(0, 0)` on a dry run. -/
def aiWorkerRun (outBase target : String) (duplicates dryRun : Bool)
    (collectExisting : String → Finset String) (cancel : Nat → Bool)
    (images : List ImgInput) (fs : Fs) (toks : List String) : RunResult :=
  if images.length = 0 then
    { code := 0, total := 0, planned := 0, renamedOk := 0, renamedFail := 0
      ledger := none, rows := [], fsAfter := fs }
  else
    let st := runLoop outBase target duplicates collectExisting cancel 1
      ⟨[], [], []⟩ images
    let r := perform_batch_rename fs st.pairs toks dryRun
    { code := 0, total := images.length, planned := st.pairs.length
      renamedOk := r.2.1, renamedFail := r.2.2
      ledger := some (write_mapping_csv st.rows), rows := st.rows
      fsAfter := r.1 }

/-! ## Sequences of planner calls sharing one index -/

/-- The stems produced by successive `plan_name` calls with
`duplicates=True` threading one index. -/
def planStemsRun : Finset String → List String → List String
  | _, [] => []
  | idx, b :: rest =>
    let r := planStem (sanitize_and_upper b) idx
    r.1 :: planStemsRun r.2 rest

theorem planStemsRun_fresh : ∀ (bases : List String) (idx : Finset String),
    (∀ s ∈ planStemsRun idx bases, s ∉ idx) ∧
      (planStemsRun idx bases).Nodup := by
  intro bases
  induction bases with
  | nil => intro idx; exact ⟨by simp [planStemsRun], List.nodup_nil⟩
  | cons b rest ih =>
    intro idx
    have hhead := planStem_not_mem (sanitize_and_upper b) idx
    have htail := ih (insert (planStem (sanitize_and_upper b) idx).1 idx)
    constructor
    · intro s hs
      simp only [planStemsRun, List.mem_cons] at hs
      rcases hs with h1 | h2
      · rw [h1]; exact hhead
      · intro hmem
        exact (htail.1 s h2) (Finset.mem_insert_of_mem hmem)
    · simp only [planStemsRun]
      refine List.Nodup.cons ?_ htail.2
      intro hmem
      exact (htail.1 _ hmem) (Finset.mem_insert_self _ _)

/-! ## Claim theorems -/

/-- Claim C1: `two_phase_rename` never silently loses a file — the multiset
of file contents after the call is a permutation of the multiset before —
and no two distinct source files end up at the same final path (path keys
stay pairwise distinct).  In particular the swap batch `[(A,B),(B,A)]`
succeeds completely with both contents preserved at distinct paths, and in
the shared-destination batch `[(A,X),(B,X)]` exactly one pair succeeds, one
is counted failed, and the failed file survives at its quarantine name. -/
theorem C1_two_phase_rename_no_loss :
    (∀ (fs : Fs) (pairs : List (FsPath × FsPath)) (toks : List String),
        List.Perm ((two_phase_rename fs pairs toks).1.map Prod.snd)
          (fs.map Prod.snd)) ∧
    (∀ (fs : Fs) (pairs : List (FsPath × FsPath)) (toks : List String),
        (fs.map Prod.fst).Nodup →
        ((two_phase_rename fs pairs toks).1.map Prod.fst).Nodup) ∧
    two_phase_rename [(⟨"d", "A"⟩, 1), (⟨"d", "B"⟩, 2)]
        [(⟨"d", "A"⟩, ⟨"d", "B"⟩), (⟨"d", "B"⟩, ⟨"d", "A"⟩)] ["t1", "t2"] =
      ([(⟨"d", "A"⟩, 2), (⟨"d", "B"⟩, 1)], 2, 0) ∧
    two_phase_rename [(⟨"d", "A"⟩, 1), (⟨"d", "B"⟩, 2)]
        [(⟨"d", "A"⟩, ⟨"d", "X"⟩), (⟨"d", "B"⟩, ⟨"d", "X"⟩)] ["t1", "t2"] =
      ([(⟨"d", "X"⟩, 1), (⟨"d", "__TMP__t2__B"⟩, 2)], 1, 1) :=
  ⟨two_phase_rename_perm, two_phase_rename_nodup, by decide, by decide⟩

/-- Witness for C1 at a concrete input, discharging the `Nodup` hypothesis. -/
theorem C1_two_phase_rename_no_loss_witness :
    ((two_phase_rename [(⟨"d", "A"⟩, 1), (⟨"d", "B"⟩, 2)]
        [(⟨"d", "A"⟩, ⟨"d", "B"⟩), (⟨"d", "B"⟩, ⟨"d", "A"⟩)]
        ["t1", "t2"]).1.map Prod.fst).Nodup :=
  C1_two_phase_rename_no_loss.2.1 _ _ _ (by decide)

/-- Claim C2 (code bug): a filesystem error in stage 1 is NOT counted as a
failure.  When the quarantine path of a source is already occupied the
stage-1 rename raises, `except: pass` silently drops the pair (it never
enters `tmp_map`), and the call returns `(0, 0)` — although both the spec
and the code's own comment ("进入失败统计") say the pair enters the
failure count. -/
theorem C2_stage1_error_not_counted :
    two_phase_rename [(⟨"d", "A"⟩, 1), (⟨"d", "__TMP__t__A"⟩, 2)]
        [(⟨"d", "A"⟩, ⟨"d", "B"⟩)] ["t"] =
      ([(⟨"d", "A"⟩, 1), (⟨"d", "__TMP__t__A"⟩, 2)], 0, 0) := by decide

/-- Claim C3 counterexample: `sanitize_and_upper "_" = "_"`, which is
nonempty and does not match `^[A-Z0-9](-?[A-Z0-9_])*$` — the first
character class of the spec's regex wrongly excludes `'_'`. -/
theorem C3_counterexample :
    sanitize_and_upper "_" = "_" ∧
    ¬ (sanitize_and_upper "_" = "" ∨
        specRegexMatch (sanitize_and_upper "_").data = true) := by decide

/-- Claim C3 (amended): every `sanitize_and_upper` output is empty or
matches `^[A-Z0-9_](-?[A-Z0-9_])*$` (first character class widened to
admit `'_'`), and the component contract holds as stated: only
`[A-Z0-9\-_]` characters, no leading or trailing `'-'`, and no internal
run of `'-'` longer than one. -/
theorem C3_amended_sanitize_shape (s : String) :
    (sanitize_and_upper s = "" ∨
      amendedRegexMatch (sanitize_and_upper s).data = true) ∧
    (∀ c ∈ (sanitize_and_upper s).data, okChar c = true) ∧
    noLeadDash (sanitize_and_upper s).data = true ∧
    noTrailDash (sanitize_and_upper s).data = true ∧
    noDD (sanitize_and_upper s).data = true := by
  obtain ⟨hok, hlead, htrail, hdd⟩ := sanitizeList_ok s.data
  refine ⟨?_, hok, hlead, htrail, hdd⟩
  by_cases hempty : sanitizeList s.data = []
  · left
    show (⟨sanitizeList s.data⟩ : String) = ""
    rw [hempty]
  · right
    exact amendedRegexMatch_of_shape hempty hok hlead htrail hdd

/-- Witness for C3 at the concrete input `"a b"`, whose sanitized form
`"A-B"` is nonempty and matches the amended expression. -/
theorem C3_amended_sanitize_shape_witness :
    amendedRegexMatch (sanitize_and_upper "a b").data = true := by
  rcases (C3_amended_sanitize_shape "a b").1 with h1 | h2
  · exact absurd h1 (by decide)
  · exact h2

/-- Claim C4 counterexample: with zero qualifying images `AiWorker.run`
returns early (line 106) BEFORE `write_mapping_csv`, so no ledger is
written at all — contradicting the claimed header-only ledger. -/
theorem C4_counterexample :
    (aiWorkerRun "out" "WhiteTag" true false (fun _ => ∅) (fun _ => false)
        [] [] []).ledger = none ∧
    (aiWorkerRun "out" "WhiteTag" true false (fun _ => ∅) (fun _ => false)
        [] [] []).ledger ≠ some [csvHeader] ∧
    (aiWorkerRun "out" "WhiteTag" true false (fun _ => ∅) (fun _ => false)
        [] [] []).total = 0 := by
  refine ⟨rfl, ?_, rfl⟩
  intro h
  cases h

/-- Claim C4 (amended): a run over zero qualifying images completes
without error (`code = 0`) and reports `total = 0`, but returns early
WITHOUT writing the ledger file; `write_mapping_csv` itself, had it been
reached, would emit the header row and zero data rows. -/
theorem C4_amended_zero_images (outBase target : String)
    (duplicates dryRun : Bool) (collectExisting : String → Finset String)
    (cancel : Nat → Bool) (fs : Fs) (toks : List String) :
    aiWorkerRun outBase target duplicates dryRun collectExisting cancel
        [] fs toks =
      { code := 0, total := 0, planned := 0, renamedOk := 0, renamedFail := 0
        ledger := none, rows := [], fsAfter := fs } ∧
    write_mapping_csv [] = [csvHeader] :=
  ⟨rfl, rfl⟩

/-- Claim C5 counterexample: `plan_name` lower-cases the extension
(`ext = ext.lower()`), so for `ext = ".PNG"` the returned name is
`"TAG-1.png"`, not the `"TAG-1.PNG"` the claim's `S + "-" + n + ext`
formula predicts. -/
theorem C5_counterexample :
    (plan_name "TAG" ".PNG" ∅ true).1 = "TAG-1.png" ∧
    ("TAG-1.png" : String) ≠ stemOf (sanitize_and_upper "TAG") 1 ++ ".PNG" := by
  constructor
  · have hs : sanitize_and_upper "TAG" = "TAG" := by decide
    have h0 : planFreeIdx "TAG" ∅ = 0 := by
      rw [planFreeIdx, Nat.find_eq_zero]; decide
    simp only [plan_name, planStem, hs, h0]
    decide
  · decide

/-- Claim C5 (amended): with duplicates enabled the returned name is
`S + "-" + n + ext.lower()` where `S` is the sanitized base and `n` the
least suffix in `1, 2, 3, …` whose stem is absent from the index; the stem
is inserted into the index before returning.  Concretely
`plan_name("TAG", ".png", \x7b\x7d, true) = "TAG-1.png"` and the identical
second call on the mutated index yields `"TAG-2.png"`. -/
theorem C5_amended_plan_name_dup :
    (∀ (base ext : String) (idx : Finset String),
      ∃ n, 1 ≤ n ∧ stemOf (sanitize_and_upper base) n ∉ idx ∧
        (∀ m, 1 ≤ m → m < n → stemOf (sanitize_and_upper base) m ∈ idx) ∧
        plan_name base ext idx true =
          (stemOf (sanitize_and_upper base) n ++ pyLower ext,
            insert (stemOf (sanitize_and_upper base) n) idx)) ∧
    plan_name "TAG" ".png" ∅ true = ("TAG-1.png", {"TAG-1"}) ∧
    plan_name "TAG" ".png" {"TAG-1"} true = ("TAG-2.png", {"TAG-1", "TAG-2"}) := by
  refine ⟨?_, ?_, ?_⟩
  · intro base ext idx
    exact ⟨planFreeIdx (sanitize_and_upper base) idx + 1, by omega,
      planStem_not_mem _ _, planStem_least _ _, rfl⟩
  · have hs : sanitize_and_upper "TAG" = "TAG" := by decide
    have h0 : planFreeIdx "TAG" ∅ = 0 := by
      rw [planFreeIdx, Nat.find_eq_zero]; decide
    simp only [plan_name, planStem, hs, h0]
    decide
  · have hs : sanitize_and_upper "TAG" = "TAG" := by decide
    have h1 : planFreeIdx "TAG" {"TAG-1"} = 1 := by
      rw [planFreeIdx, Nat.find_eq_iff]
      refine ⟨by decide, ?_⟩
      intro m hm
      have hm0 : m = 0 := by omega
      subst hm0
      decide
    simp only [plan_name, planStem, hs, h1]
    decide

/-- Witness for C5 at a concrete occupied index. -/
theorem C5_amended_plan_name_dup_witness :
    ∃ n, 1 ≤ n ∧
      stemOf (sanitize_and_upper "TAG") n ∉ ({"TAG-1"} : Finset String) ∧
      (∀ m, 1 ≤ m → m < n →
        stemOf (sanitize_and_upper "TAG") m ∈ ({"TAG-1"} : Finset String)) ∧
      plan_name "TAG" ".png" {"TAG-1"} true =
        (stemOf (sanitize_and_upper "TAG") n ++ pyLower ".png",
          insert (stemOf (sanitize_and_upper "TAG") n) {"TAG-1"}) :=
  C5_amended_plan_name_dup.1 "TAG" ".png" {"TAG-1"}

/-- Claim C6: across any sequence of `plan_name` calls threading one index
with `duplicates=true`, the returned stems are pairwise distinct for any
mix of bases; each returned name is its stem followed by the lower-cased
extension. -/
theorem C6_plan_stems_nodup :
    (∀ (idx : Finset String) (bases : List String),
        (planStemsRun idx bases).Nodup) ∧
    (∀ (base ext : String) (idx : Finset String),
        (plan_name base ext idx true).1 =
          (planStem (sanitize_and_upper base) idx).1 ++ pyLower ext) :=
  ⟨fun idx bases => (planStemsRun_fresh bases idx).2, fun _ _ _ => rfl⟩

/-- Claim C7 counterexample: with duplicates disabled `plan_name` still
lower-cases the extension, so for `ext = ".PNG"` the result is
`"TAG.png"`, not the claimed `base + ext = "TAG.PNG"`. -/
theorem C7_counterexample :
    plan_name "TAG" ".PNG" ∅ false = ("TAG.png", ∅) ∧
    ("TAG.png" : String) ≠ sanitize_and_upper "TAG" ++ ".PNG" := by decide

/-- Claim C7 (amended): with duplicates disabled the returned name is the
sanitized base concatenated with the LOWER-CASED extension, unconditionally
and with the index returned unchanged; concretely
`plan_name("TAG", ".png", \x7b\x7d, false) = "TAG.png"`. -/
theorem C7_amended_plan_name_nodup :
    (∀ (base ext : String) (idx : Finset String),
        plan_name base ext idx false =
          (sanitize_and_upper base ++ pyLower ext, idx)) ∧
    plan_name "TAG" ".png" ∅ false = ("TAG.png", ∅) :=
  ⟨fun _ _ _ => rfl, by decide⟩

/-- Claim C8: on a dry run the batch-rename step performs no rename at all
(the filesystem is returned unchanged) and both reported counters are
zero, for every input batch. -/
theorem C8_dry_run_no_renames (outBase target : String) (duplicates : Bool)
    (collectExisting : String → Finset String) (cancel : Nat → Bool)
    (images : List ImgInput) (fs : Fs) (toks : List String) :
    (aiWorkerRun outBase target duplicates true collectExisting cancel
        images fs toks).renamedOk = 0 ∧
    (aiWorkerRun outBase target duplicates true collectExisting cancel
        images fs toks).renamedFail = 0 ∧
    (aiWorkerRun outBase target duplicates true collectExisting cancel
        images fs toks).fsAfter = fs := by
  unfold aiWorkerRun
  by_cases h : images.length = 0
  · rw [if_pos h]; exact ⟨rfl, rfl, rfl⟩
  · rw [if_neg h]; exact ⟨rfl, rfl, rfl⟩

/-- Claim C9: `sanitize_and_upper` is idempotent. -/
theorem C9_sanitize_idempotent (s : String) :
    sanitize_and_upper (sanitize_and_upper s) = sanitize_and_upper s :=
  congrArg String.mk (sanitizeList_idem s.data)

/-- Claim C10: with no API key configured `OCRClient.ocr` returns the
literal `"UNKNOWN"`; the orchestrator does not classify `"UNKNOWN"` as
no-text (it is nonempty and lacks the `"[OCR错误]"` marker), so an image
whose OCR yields `"UNKNOWN"` is recorded as PLANNED with sanitized base
`"UNKNOWN"` and queued for rename. -/
theorem C10_unknown_planned :
    (∀ sdkResult restResult : String,
        ocrClientOcr "" "" sdkResult restResult = "UNKNOWN") ∧
    isNoText "UNKNOWN" = false ∧
    (∀ (outBase target : String) (duplicates : Bool)
        (collectExisting : String → Finset String) (st : RunState)
        (img : ImgInput),
      img.openOk = true →
      img.detClasses.filter
        (fun c => pyLower (pyStrip c) == pyLower (pyStrip target)) ≠ [] →
      img.ocrText = "UNKNOWN" →
      ∃ finalName subOut exMap,
        processImage outBase target duplicates collectExisting st img =
          { existingMap := exMap
            rows := st.rows ++
              [⟨img.dir, img.name, "UNKNOWN", "UNKNOWN", finalName, "PLANNED"⟩]
            pairs := st.pairs ++ [(⟨img.dir, img.name⟩, ⟨subOut, finalName⟩)] }) := by
  refine ⟨fun _ _ => rfl, by decide, ?_⟩
  intro outBase target duplicates collect st img h1 h2 h3
  have hsan : sanitize_and_upper "UNKNOWN" = "UNKNOWN" := by decide
  have hnt : isNoText "UNKNOWN" = false := by decide
  simp only [processImage, h1, h3, hsan, hnt]
  rw [if_neg (by simp), if_neg h2, if_neg (by simp)]
  exact ⟨_, _, _, rfl⟩

/-- Witness for C10 at a concrete image, discharging all hypotheses. -/
theorem C10_unknown_planned_witness :
    ((⟨"in/d", "x.png", ".png", "d", true, ["WhiteTag"], "UNKNOWN"⟩ :
        ImgInput).openOk = true) ∧
    (["WhiteTag"].filter
        (fun c => pyLower (pyStrip c) == pyLower (pyStrip "WhiteTag")) ≠ []) ∧
    (∃ finalName subOut exMap,
      processImage "out" "WhiteTag" true (fun _ => ∅) ⟨[], [], []⟩
          ⟨"in/d", "x.png", ".png", "d", true, ["WhiteTag"], "UNKNOWN"⟩ =
        { existingMap := exMap
          rows := [⟨"in/d", "x.png", "UNKNOWN", "UNKNOWN", finalName, "PLANNED"⟩]
          pairs := [(⟨"in/d", "x.png"⟩, ⟨subOut, finalName⟩)] }) :=
  ⟨rfl, by decide,
    C10_unknown_planned.2.2 "out" "WhiteTag" true (fun _ => ∅) ⟨[], [], []⟩
      ⟨"in/d", "x.png", ".png", "d", true, ["WhiteTag"], "UNKNOWN"⟩
      rfl (by decide) rfl⟩

end TagRename
